import Mathlib

set_option maxRecDepth 8000

attribute [local semireducible] Rat.mul Rat.inv Rat.add Rat.sub

/-!
Verification development for the MidasBot decision core
(source file MidasBot_Full.py).

The embedding uses exact rationals (ℚ) for the Python floats: literals
such as 0.0002 become 2/10000, and Python round(x, n) is modelled by
round-half-to-even on x * 10^n (pyRound below).  External effects of the
program (exchange network calls, CSV appends, the clock, sleeping) are
modelled as explicit inputs and outputs of the corresponding functions.
-/

namespace Midas

/-- One OHLCV candle, the tuple (ts, open, high, low, close, volume)
used by the source.  The source reads index 4 (close) for closes and
indices 1..4 inside atrp_list. -/
structure Candle where
  ts : ℚ
  o : ℚ
  hi : ℚ
  lo : ℚ
  c : ℚ
  vol : ℚ
deriving DecidableEq

/-- The five regimes of the classifier. -/
inductive Regime
  | SCOUT
  | LUNCHBOX
  | REGULAR
  | AFTERBURNER
  | DIP
deriving DecidableEq

/-- Order side, as the strings "buy" and "sell" in the source. -/
inductive Side
  | buy
  | sell
deriving DecidableEq

/-- Trade-record side, as the strings "LONG" and "SHORT" in the source. -/
inductive TradeSide
  | LONG
  | SHORT
deriving DecidableEq

/-- An order intent, the tuple (side, qty, limit_price) produced
by plan_grid in the source. -/
structure OrderIntent where
  side : Side
  qty : ℚ
  px : ℚ
deriving DecidableEq

/-- The fee dictionary self.fees of the source.  hasManualKey models
membership of the reserved key "manual" in that dictionary, which is the
condition tested by fees_update before refreshing. -/
structure FeesState where
  maker : ℚ
  taker : ℚ
  hasManualKey : Bool
deriving DecidableEq

/-- A manual fee override (the manual_fees constructor argument); each
component may be absent, matching a dict holding any subset of the keys
maker and taker. -/
structure ManualFees where
  maker : Option ℚ
  taker : Option ℚ
deriving DecidableEq

/-- The row written per simulated fill by exec_paper (the fields that
come from the computation; utc timestamp, exchange and symbol strings are
external data passed through unchanged and are omitted). -/
structure TradeRecord where
  bot : Regime
  side : TradeSide
  qty : ℚ
  entryPx : ℚ
  exitPx : ℚ
  grossPct : ℚ
  netPct : ℚ
  feePctRt : ℚ
  pnlUsd : ℚ
deriving DecidableEq

/-- Python round(x, n): round half to even at n decimal digits,
idealised over ℚ. -/
def pyRound (x : ℚ) (n : ℕ) : ℚ :=
  let y : ℚ := x * 10 ^ n
  let f : ℤ := y.floor
  let r : ℚ := y - f
  let k : ℤ :=
    if r < 1/2 then f
    else if 1/2 < r then f + 1
    else if f % 2 = 0 then f else f + 1
  (k : ℚ) / 10 ^ n

/-- Source ema_list: exponential smoothing with weight 2/(n+1); returns
the input unchanged when it is empty or the span n is at most 1; the
first output is the first input and each later output is
(v - s) * k + s. -/
def ema_list (values : List ℚ) (n : ℕ) : List ℚ :=
  match values with
  | [] => []
  | v0 :: rest =>
    if n ≤ 1 then v0 :: rest
    else
      let k : ℚ := 2 / ((n : ℚ) + 1)
      (rest.foldl (fun (acc : List ℚ × ℚ) v =>
        let s := (v - acc.2) * k + acc.2
        (acc.1 ++ [s], s)) ([v0], v0)).1

/-- Source rsi_list: none when fewer than n+1 values; otherwise sums the
positive deltas (gains) and magnitudes of negative deltas (losses) over
the first n transitions, averages them, and returns 100 when the average
loss is zero, else 100 - 100 / (1 + avg_gain / avg_loss). -/
def rsi_list (values : List ℚ) (n : ℕ) : Option ℚ :=
  if values.length < n + 1 then none
  else
    let gl := (List.range n).foldl (fun (gl : ℚ × ℚ) i =>
      let d := values.getD (i + 1) 0 - values.getD i 0
      if 0 ≤ d then (gl.1 + d, gl.2) else (gl.1, gl.2 - d)) (0, 0)
    let avgGain := gl.1 / (n : ℚ)
    let avgLoss := if 0 < gl.2 then gl.2 / (n : ℚ) else 0
    if avgLoss = 0 then some 100
    else some (100 - 100 / (1 + avgGain / avgLoss))

/-- Source atrp_list: 0 when fewer than n+1 candles; otherwise computes
the true range of each candle after the first against the previous close,
exponentially smooths the true-range series with weight 2/(n+1), and
divides the smoothed value by the last close (a zero last close is
replaced by 1, matching the "or 1.0" in the source). -/
def atrp_list (ohlcv : List Candle) (n : ℕ) : ℚ :=
  if ohlcv.length < n + 1 then 0
  else
    match ohlcv with
    | [] => 0
    | c0 :: rest =>
      let trs := (rest.foldl (fun (acc : List ℚ × ℚ) cd =>
        let tr := max (cd.hi - cd.lo) (max |cd.hi - acc.2| |cd.lo - acc.2|)
        (acc.1 ++ [tr], cd.c)) ([], c0.c)).1
      let k : ℚ := 2 / ((n : ℚ) + 1)
      let s := match trs with
        | [] => 0
        | t0 :: ts => ts.foldl (fun s v => (v - s) * k + s) t0
      let lastClose := ((c0 :: rest).getLastD c0).c
      let lc := if lastClose = 0 then 1 else lastClose
      s / lc

/-- The priority if/elif chain inside the regime method of the source,
over the computed slope, rsi value r and normalized volatility a. -/
def regimeChain (slope r a : ℚ) : Regime :=
  if slope > 8/10000 ∧ r > 55 ∧ a > 3/1000 then .AFTERBURNER
  else if |slope| < 4/10000 ∧ 35 < r ∧ r < 65 ∧ a < 5/1000 then .LUNCHBOX
  else if |slope| < 15/10000 ∧ a ≥ 3/1000 then .REGULAR
  else if r < 32 ∧ slope > -(2/1000) then .DIP
  else .SCOUT

/-- The slope signal of the regime method: (fast ema - slow ema) divided
by (slow ema + 1e-12).  The final list elements are taken with default 0;
the lists are nonempty whenever the series is (the source indexes [-1]). -/
def slopeOf (ohlcv : List Candle) : ℚ :=
  let closes := ohlcv.map (·.c)
  let emaFast := (ema_list closes 12).getLastD 0
  let emaSlow := (ema_list closes 48).getLastD 0
  (emaFast - emaSlow) / (emaSlow + 1/10^12)

/-- Source regime method: SCOUT for fewer than 50 candles, SCOUT when
rsi_list is absent, else the priority chain over slope, rsi and atrp. -/
def regime (ohlcv : List Candle) : Regime :=
  if ohlcv.length < 50 then .SCOUT
  else
    let closes := ohlcv.map (·.c)
    match rsi_list closes 14 with
    | none => .SCOUT
    | some r => regimeChain (slopeOf ohlcv) r (atrp_list ohlcv 14)

/-- Source net_ok: net = gross_step - (maker * 2 + 0.0002), true when
net is at least min_net. -/
def net_ok (fees : FeesState) (minNet grossStep : ℚ) : Bool :=
  decide (grossStep - (fees.maker * 2 + 2/10000) ≥ minNet)

/-- The body of the plan_grid loop for one level index i: conditionally
append the buy order, then conditionally append the sell order, exactly
as the Python loop mutates its orders list. -/
def planBody (per price spacing : ℚ) (fees : FeesState) (minNet : ℚ)
    (orders : List OrderIntent) (i : ℕ) : List OrderIntent :=
  let dn := price * (1 - spacing * ((i : ℚ) + 1))
  let up := price * (1 + spacing * ((i : ℚ) + 1))
  let buyQty := per / max dn (1/10^9)
  let sellQty := per / max up (1/10^9)
  let stepBuy := (price - dn) / max price (1/10^9)
  let stepSell := (up - price) / max price (1/10^9)
  let orders :=
    if 0 < buyQty ∧ net_ok fees minNet stepBuy = true then
      orders ++ [⟨.buy, pyRound buyQty 8, pyRound dn 4⟩]
    else orders
  if 0 < sellQty ∧ net_ok fees minNet stepSell = true then
    orders ++ [⟨.sell, pyRound sellQty 8, pyRound up 4⟩]
  else orders

/-- Source plan_grid: the loop over i in range(grids) that conditionally
appends a buy and then a sell per level, written as a left fold of the
loop body over the mutable orders list.  The grid count is an integer
(the source casts the constructor argument with int). -/
def plan_grid (budgetUsd balanceQuote : ℚ) (grids : ℤ) (spacing : ℚ)
    (fees : FeesState) (minNet price : ℚ) : List OrderIntent :=
  let budget := min budgetUsd balanceQuote
  if budget ≤ 0 ∨ grids ≤ 0 ∨ price ≤ 0 then []
  else
    (List.range grids.toNat).foldl
      (planBody (budget / (grids : ℚ)) price spacing fees minNet) []

/-- Concatenation of the per-index lists, used to restate the planner
loop as a level-by-level comprehension. -/
def catList (f : ℕ → List α) : List ℕ → List α
  | [] => []
  | i :: is => f i ++ catList f is

/-- The raw (pre-rounding) candidates of one grid level: the same
conditions as the source loop body, with unrounded quantity and price. -/
def gridItemRaw (per price spacing : ℚ) (fees : FeesState) (minNet : ℚ)
    (i : ℕ) : List OrderIntent :=
  let dn := price * (1 - spacing * ((i : ℚ) + 1))
  let up := price * (1 + spacing * ((i : ℚ) + 1))
  let buyQty := per / max dn (1/10^9)
  let sellQty := per / max up (1/10^9)
  let stepBuy := (price - dn) / max price (1/10^9)
  let stepSell := (up - price) / max price (1/10^9)
  (if 0 < buyQty ∧ net_ok fees minNet stepBuy = true then
    [⟨.buy, buyQty, dn⟩] else []) ++
  (if 0 < sellQty ∧ net_ok fees minNet stepSell = true then
    [⟨.sell, sellQty, up⟩] else [])

/-- Rounding applied by the source when appending an order:
quantity to 8 decimals, limit price to 4 decimals. -/
def roundIntent (o : OrderIntent) : OrderIntent :=
  ⟨o.side, pyRound o.qty 8, pyRound o.px 4⟩

/-- The planner with unrounded quantities and prices (analysis mirror of
plan_grid; the real planner is its image under roundIntent). -/
def planGridRaw (budgetUsd balanceQuote : ℚ) (grids : ℤ) (spacing : ℚ)
    (fees : FeesState) (minNet price : ℚ) : List OrderIntent :=
  let budget := min budgetUsd balanceQuote
  if budget ≤ 0 ∨ grids ≤ 0 ∨ price ≤ 0 then []
  else
    catList (gridItemRaw (budget / (grids : ℚ)) price spacing fees minNet)
      (List.range grids.toNat)

/-- Modelled from the spec (claim C8, amended by the edge filter, the
positive-quantity filter, the max-guards and the rounding the source
applies): effective budget is min of budget and balance; empty on a
non-positive effective budget, level count or price; per level
i = 1..gridLevels a buy at price * (1 - spacing * i) and a sell at
price * (1 + spacing * i), each sized to perLevelNotional / levelPrice
(with the non-positive-price guard), included only when positive and
passing the fee/edge evaluator; levels innermost first, buy before sell. -/
def planLadderSpec (currentPrice budget availableBalance : ℚ) (gridLevels : ℤ)
    (spacingFraction : ℚ) (fees : FeesState) (minNetFraction : ℚ) :
    List OrderIntent :=
  let eb := min budget availableBalance
  if eb ≤ 0 ∨ gridLevels ≤ 0 ∨ currentPrice ≤ 0 then []
  else
    let per := eb / (gridLevels : ℚ)
    catList (fun j =>
      let lvl : ℚ := (j : ℚ) + 1
      let buyPx := currentPrice * (1 - spacingFraction * lvl)
      let sellPx := currentPrice * (1 + spacingFraction * lvl)
      let buyQty := per / max buyPx (1/10^9)
      let sellQty := per / max sellPx (1/10^9)
      (if 0 < buyQty ∧
          net_ok fees minNetFraction
            ((currentPrice - buyPx) / max currentPrice (1/10^9)) = true then
        [⟨.buy, pyRound buyQty 8, pyRound buyPx 4⟩] else []) ++
      (if 0 < sellQty ∧
          net_ok fees minNetFraction
            ((sellPx - currentPrice) / max currentPrice (1/10^9)) = true then
        [⟨.sell, pyRound sellQty 8, pyRound sellPx 4⟩] else []))
      (List.range gridLevels.toNat)

/-- Modelled from the claim C2/C8 wording taken literally (no edge
filter, no rounding, no guards inside a level): every level contributes
an exact buy and sell candidate.  Used to compare the claim text with the
source planner. -/
def planLadderClaim (currentPrice budget availableBalance : ℚ)
    (gridLevels : ℤ) (spacingFraction : ℚ) (fees : FeesState)
    (minNetFraction : ℚ) : List OrderIntent :=
  let eb := min budget availableBalance
  if eb ≤ 0 ∨ gridLevels ≤ 0 ∨ currentPrice ≤ 0 then []
  else
    let per := eb / (gridLevels : ℚ)
    catList (fun j =>
      let lvl : ℚ := (j : ℚ) + 1
      let buyPx := currentPrice * (1 - spacingFraction * lvl)
      let sellPx := currentPrice * (1 + spacingFraction * lvl)
      [⟨.buy, per / buyPx, buyPx⟩, ⟨.sell, per / sellPx, sellPx⟩])
      (List.range gridLevels.toNat)

/-- Source exec_paper: the simulated immediate take-profit fill.  The
target move is spacing, boosted by 1.5 exactly for AFTERBURNER; returns
the trade record the source appends to the CSV ledger. -/
def exec_paper (side : Side) (qty px : ℚ) (tag : Regime) (spacing : ℚ)
    (fees : FeesState) : TradeRecord :=
  match side with
  | .buy =>
    let tp := px * (1 + (if tag = .AFTERBURNER then spacing * (15/10) else spacing))
    let gross := (tp - px) / px
    let net := gross - (fees.maker * 2 + 2/10000)
    let pnl := qty * (tp - px) - qty * px * fees.maker - qty * tp * fees.maker
    ⟨tag, .LONG, qty, px, tp, gross, net, fees.maker, pnl⟩
  | .sell =>
    let tp := px * (1 - (if tag = .AFTERBURNER then spacing * (15/10) else spacing))
    let gross := (px - tp) / px
    let net := gross - (fees.maker * 2 + 2/10000)
    let pnl := qty * (px - tp) - qty * px * fees.maker - qty * tp * fees.maker
    ⟨tag, .SHORT, qty, px, tp, gross, net, fees.maker, pnl⟩

/-- The orders a single tick acts upon, given the regime, the balance,
the price and the planner output: the source returns early on SCOUT, a
dust balance or a non-positive price, filters the planner output to the
sell side for AFTERBURNER and to the buy side for DIP, and then iterates
over orders[:2]. -/
def tickActed (r : Regime) (balanceQuote price : ℚ)
    (planner : List OrderIntent) : List OrderIntent :=
  if r = .SCOUT ∨ balanceQuote ≤ 1/10^6 ∨ price ≤ 0 then []
  else
    let orders : List OrderIntent :=
      match r with
      | .SCOUT => []
      | .LUNCHBOX => planner
      | .REGULAR => planner
      | .AFTERBURNER => planner.filter (fun o => decide (o.side = .sell))
      | .DIP => planner.filter (fun o => decide (o.side = .buy))
    orders.take 2

/-- Quote notional consumed by a list of acted orders: buys spend
quantity times limit price from the quote balance. -/
def quoteNotional (os : List OrderIntent) : ℚ :=
  os.foldr (fun o acc => (if o.side = .buy then o.qty * o.px else 0) + acc) 0

/-- Source constructor fee initialisation: the default dict
{maker 0.0010, taker 0.0015} updated with the manual override entries
restricted to the keys maker and taker; the reserved key "manual" is
never inserted. -/
def initFees (manual : Option ManualFees) : FeesState :=
  match manual with
  | none => ⟨10/10000, 15/10000, false⟩
  | some mf => ⟨mf.maker.getD (10/10000), mf.taker.getD (15/10000), false⟩

/-- Source fees_update.  The external fetch_trading_fee result is an
optional pair of optional rates (none for a raised error, inner none for
a missing dict key, defaulting to the stored rate); the market-metadata
fallback is modelled the same way.  A successful fetch assigns a fresh
two-key dict, the fallback mutates the existing dict in place. -/
def fees_update (st : FeesState)
    (fetchFee : Option (Option ℚ × Option ℚ))
    (marketInfo : Option (Option ℚ × Option ℚ)) : FeesState :=
  if st.hasManualKey then st
  else
    match fetchFee with
    | some mt => ⟨mt.1.getD st.maker, mt.2.getD st.taker, false⟩
    | none =>
      match marketInfo with
      | some mt => ⟨mt.1.getD st.maker, mt.2.getD st.taker, st.hasManualKey⟩
      | none => st

/-- State of the scheduler loop visible to the status reporter. -/
structure LoopState where
  stopFlag : Bool
  lastMsg : String
  ticksDone : ℕ
deriving DecidableEq

/-- Outcome of one tick body: a normal tick that sets the status
message, or a raised exception with its pretty-printed text. -/
inductive TickResult
  | ok (msg : String)
  | err (msg : String)
deriving DecidableEq

/-- Effect of one tick body on the loop state: a normal tick publishes
its status message, an exception is caught and recorded as
"tick err: ..." exactly as in run_loop; either way one more tick has
completed. -/
def applyTick (s : LoopState) (r : TickResult) : LoopState :=
  match r with
  | .ok m => { s with lastMsg := m, ticksDone := s.ticksDone + 1 }
  | .err e => { s with lastMsg := "tick err: " ++ e, ticksDone := s.ticksDone + 1 }

/-- Source run_loop over a finite trace.  Each trace element is the
outcome of the would-be next tick together with whether an external stop
request arrives during the following sleep.  The loop checks stop_flag
before each tick; the boolean of the result records whether the loop has
exited (true) or is still running when the trace ends (false). -/
def runLoop (s : LoopState) : List (TickResult × Bool) → LoopState × Bool
  | [] => (s, false)
  | (r, stopReq) :: rest =>
    if s.stopFlag then (s, true)
    else
      let s1 := applyTick s r
      runLoop { s1 with stopFlag := s1.stopFlag || stopReq } rest

/-- Modelled from the spec: the classifier contract as an ordered
decision table of (predicate, regime) pairs over the triple
(slope, rsi, vol), evaluated first match wins (claim C1 and the design
note of the spec). -/
def regimeRules : List ((ℚ × ℚ × ℚ → Bool) × Regime) :=
  [ (fun x => decide (x.1 > 8/10000) &&
      (decide (x.2.1 > 55) && decide (x.2.2 > 3/1000)), .AFTERBURNER),
    (fun x => decide (|x.1| < 4/10000) &&
      (decide (35 < x.2.1) && (decide (x.2.1 < 65) && decide (x.2.2 < 5/1000))),
      .LUNCHBOX),
    (fun x => decide (|x.1| < 15/10000) && decide (x.2.2 ≥ 3/1000), .REGULAR),
    (fun x => decide (x.2.1 < 32) && decide (x.1 > -(2/1000)), .DIP) ]

/-- Evaluate an ordered decision table, first match wins, defaulting to
SCOUT. -/
def firstMatch (rules : List ((ℚ × ℚ × ℚ → Bool) × Regime))
    (x : ℚ × ℚ × ℚ) : Regime :=
  match rules with
  | [] => .SCOUT
  | (p, r) :: rest => if p x then r else firstMatch rest x

/-- Modelled from the spec: the classifier described by claim C1 — SCOUT
below 50 candles, SCOUT when the relative strength is absent, otherwise
the ordered decision table over (slope, rsi, vol). -/
def regimeSpec (ohlcv : List Candle) : Regime :=
  if ohlcv.length < 50 then .SCOUT
  else
    match rsi_list (ohlcv.map (·.c)) 14 with
    | none => .SCOUT
    | some r => firstMatch regimeRules (slopeOf ohlcv, r, atrp_list ohlcv 14)

/-- A flat candle (all prices 1) used as a concrete witness input. -/
def flatCandle : Candle := ⟨0, 1, 1, 1, 1, 0⟩

/-- Fifty flat candles: a concrete series long enough for the
classifier. -/
def flatSeries : List Candle := List.replicate 50 flatCandle

/-! ## Helper lemmas -/

theorem mem_catList {f : ℕ → List α} {l : List ℕ} {a : α} :
    a ∈ catList f l ↔ ∃ i ∈ l, a ∈ f i := by
  induction l with
  | nil => simp [catList]
  | cons i is ih => simp [catList, List.mem_append, ih]

theorem map_catList (g : α → β) (f : ℕ → List α) (l : List ℕ) :
    (catList f l).map g = catList (fun i => (f i).map g) l := by
  induction l <;> simp [catList, *]

theorem catList_congr {f f' : ℕ → List α} (l : List ℕ)
    (h : ∀ i, f i = f' i) : catList f l = catList f' l := by
  induction l <;> simp [catList, h, *]

theorem foldl_of_append (body : List α → ℕ → List α) (f : ℕ → List α)
    (hb : ∀ a i, body a i = a ++ f i) (l : List ℕ) (acc : List α) :
    l.foldl body acc = acc ++ catList f l := by
  induction l generalizing acc with
  | nil => simp [catList]
  | cons i is ih => simp [catList, hb, ih, List.append_assoc]

theorem planBody_eq (per price spacing : ℚ) (fees : FeesState) (minNet : ℚ)
    (orders : List OrderIntent) (i : ℕ) :
    planBody per price spacing fees minNet orders i
      = orders ++ (gridItemRaw per price spacing fees minNet i).map roundIntent := by
  simp only [planBody, gridItemRaw]
  split_ifs <;> simp [roundIntent, List.append_assoc]

theorem plan_grid_eq_raw (B Q : ℚ) (g : ℤ) (s : ℚ) (fees : FeesState)
    (minNet p : ℚ) :
    plan_grid B Q g s fees minNet p
      = (planGridRaw B Q g s fees minNet p).map roundIntent := by
  simp only [plan_grid, planGridRaw]
  by_cases hguard : min B Q ≤ 0 ∨ g ≤ 0 ∨ p ≤ 0
  · rw [if_pos hguard, if_pos hguard]
    rfl
  · rw [if_neg hguard, if_neg hguard,
      foldl_of_append _ _ (planBody_eq (min B Q / (g : ℚ)) p s fees minNet),
      map_catList]
    simp

theorem plan_grid_eq_ladder_spec (B Q : ℚ) (g : ℤ) (s : ℚ) (fees : FeesState)
    (minNet p : ℚ) :
    plan_grid B Q g s fees minNet p = planLadderSpec p B Q g s fees minNet := by
  rw [plan_grid_eq_raw]
  simp only [planGridRaw, planLadderSpec]
  by_cases hguard : min B Q ≤ 0 ∨ g ≤ 0 ∨ p ≤ 0
  · rw [if_pos hguard, if_pos hguard]
    rfl
  · rw [if_neg hguard, if_neg hguard, map_catList]
    refine catList_congr _ fun i => ?_
    simp only [gridItemRaw, List.map_append]
    split_ifs <;> simp [roundIntent]

theorem pyRound_pos {x : ℚ} (n : ℕ) (h : 1 ≤ x * 10 ^ n) : 0 < pyRound x n := by
  simp only [pyRound]
  have hf : 1 ≤ (x * 10 ^ n).floor := by
    rw [Rat.le_floor]
    exact_mod_cast h
  apply div_pos _ (by positivity)
  have h0 : (0:ℤ) < (x * 10 ^ n).floor := by omega
  have h1 : (0:ℤ) < (x * 10 ^ n).floor + 1 := by omega
  split_ifs
  · exact_mod_cast h0
  · exact_mod_cast h1
  · exact_mod_cast h0
  · exact_mod_cast h1

theorem chain_eq_rules (s r a : ℚ) :
    regimeChain s r a = firstMatch regimeRules (s, r, a) := by
  simp only [regimeChain, firstMatch, regimeRules, Bool.and_eq_true,
    decide_eq_true_eq]

theorem tickActed_sublist (r : Regime) (bal p : ℚ) (l : List OrderIntent) :
    (tickActed r bal p l).Sublist l := by
  unfold tickActed
  split
  · exact List.nil_sublist l
  · cases r
    · exact (List.take_sublist 2 []).trans (List.nil_sublist l)
    · exact List.take_sublist 2 l
    · exact List.take_sublist 2 l
    · exact (List.take_sublist 2 _).trans (List.filter_sublist l)
    · exact (List.take_sublist 2 _).trans (List.filter_sublist l)

theorem tickActed_length (r : Regime) (bal p : ℚ) (l : List OrderIntent) :
    (tickActed r bal p l).length ≤ 2 := by
  unfold tickActed
  split
  · simp
  · cases r <;> simp [List.length_take]

theorem filter_side_map (sd : Side) (l : List OrderIntent) :
    (l.map roundIntent).filter (fun o => decide (o.side = sd))
      = (l.filter (fun o => decide (o.side = sd))).map roundIntent := by
  rw [List.filter_map]
  rfl

theorem tickActed_map_round (r : Regime) (bal p : ℚ) (l : List OrderIntent) :
    tickActed r bal p (l.map roundIntent)
      = (tickActed r bal p l).map roundIntent := by
  unfold tickActed
  split
  · simp
  · cases r <;> simp [List.map_take, filter_side_map]

theorem quoteNotional_cons (o : OrderIntent) (l : List OrderIntent) :
    quoteNotional (o :: l)
      = (if o.side = .buy then o.qty * o.px else 0) + quoteNotional l := rfl

theorem quoteNotional_le_of_bound (l : List OrderIntent) (c : ℚ)
    (hc : 0 ≤ c)
    (h : ∀ o ∈ l, (if o.side = .buy then o.qty * o.px else 0) ≤ c) :
    quoteNotional l ≤ (l.length : ℚ) * c := by
  induction l with
  | nil => simp [quoteNotional]
  | cons o os ih =>
    rw [quoteNotional_cons]
    have h1 := h o (by simp)
    have h2 : quoteNotional os ≤ (os.length : ℚ) * c :=
      ih fun o' ho' => h o' (by simp [ho'])
    simp only [List.length_cons]
    push_cast
    linarith

theorem planGridRaw_notional_le (B Q : ℚ) (g : ℤ) (s : ℚ) (fees : FeesState)
    (minNet p : ℚ) :
    ∀ o ∈ planGridRaw B Q g s fees minNet p,
      (if o.side = .buy then o.qty * o.px else 0) ≤ min B Q / (g : ℚ) := by
  intro o ho
  unfold planGridRaw at ho
  by_cases hguard : min B Q ≤ 0 ∨ g ≤ 0 ∨ p ≤ 0
  · rw [if_pos hguard] at ho
    simp at ho
  · rw [if_neg hguard] at ho
    push_neg at hguard
    obtain ⟨hb0, hg0, _⟩ := hguard
    have hgq : (0:ℚ) < (g : ℚ) := by exact_mod_cast hg0
    have hper : 0 < min B Q / (g : ℚ) := div_pos hb0 hgq
    rw [mem_catList] at ho
    obtain ⟨i, _, hoi⟩ := ho
    set per := min B Q / (g : ℚ)
    set dn := p * (1 - s * ((i : ℚ) + 1)) with hdn
    set up := p * (1 + s * ((i : ℚ) + 1)) with hup
    have key : ∀ (d : ℚ), per / max d (1/10^9) * d ≤ per := by
      intro d
      rcases le_or_lt (1/10^9) d with hd | hd
      · rw [max_eq_left hd]
        have hd0 : d ≠ 0 := by positivity
        rw [div_mul_cancel₀ _ hd0]
      · rw [max_eq_right hd.le]
        calc per / (1/10^9) * d ≤ per / (1/10^9) * (1/10^9) := by
              have : 0 ≤ per / (1/10^9) := by positivity
              exact mul_le_mul_of_nonneg_left hd.le this
        _ = per := by norm_num
    unfold gridItemRaw at hoi
    rw [List.mem_append] at hoi
    rcases hoi with hbuy | hsell
    · split_ifs at hbuy with hcond
      · rw [List.mem_singleton] at hbuy
        subst hbuy
        simpa using key dn
      · simp at hbuy
    · split_ifs at hsell with hcond
      · rw [List.mem_singleton] at hsell
        subst hsell
        simpa using hper.le
      · simp at hsell

theorem quoteNotional_eq_filter_buy (l : List OrderIntent) :
    quoteNotional l
      = quoteNotional (l.filter (fun o => decide (o.side = .buy))) := by
  induction l with
  | nil => rfl
  | cons o os ih =>
    by_cases hb : o.side = .buy <;>
      simp [quoteNotional_cons, List.filter_cons, hb, ih]

theorem catList_filter (pred : α → Bool) (f : ℕ → List α) (l : List ℕ) :
    (catList f l).filter pred = catList (fun i => (f i).filter pred) l := by
  induction l <;> simp [catList, List.filter_append, *]

theorem catList_length_le (f : ℕ → List α) (l : List ℕ)
    (h : ∀ i, (f i).length ≤ 1) : (catList f l).length ≤ l.length := by
  induction l with
  | nil => simp [catList]
  | cons i is ih =>
    have := h i
    simp only [catList, List.length_append, List.length_cons]
    omega

theorem gridItemRaw_buys_le_one (per price spacing : ℚ) (fees : FeesState)
    (minNet : ℚ) (i : ℕ) :
    ((gridItemRaw per price spacing fees minNet i).filter
      (fun o => decide (o.side = .buy))).length ≤ 1 := by
  unfold gridItemRaw
  rw [List.filter_append]
  split_ifs <;> simp

theorem planGridRaw_buys_le (B Q : ℚ) (g : ℤ) (s : ℚ) (fees : FeesState)
    (minNet p : ℚ) :
    ((planGridRaw B Q g s fees minNet p).filter
      (fun o => decide (o.side = .buy))).length ≤ g.toNat := by
  unfold planGridRaw
  by_cases hguard : min B Q ≤ 0 ∨ g ≤ 0 ∨ p ≤ 0
  · rw [if_pos hguard]
    simp
  · rw [if_neg hguard, catList_filter]
    calc (catList (fun i => (gridItemRaw (min B Q / (g : ℚ)) p s fees minNet i).filter
            (fun o => decide (o.side = .buy))) (List.range g.toNat)).length
        ≤ (List.range g.toNat).length :=
          catList_length_le _ _
            (gridItemRaw_buys_le_one (min B Q / (g : ℚ)) p s fees minNet)
      _ = g.toNat := List.length_range g.toNat

theorem applyTick_stopFlag (s : LoopState) (r : TickResult) :
    (applyTick s r).stopFlag = s.stopFlag := by
  cases r <;> rfl

theorem applyTick_ticksDone (s : LoopState) (r : TickResult) :
    (applyTick s r).ticksDone = s.ticksDone + 1 := by
  cases r <;> rfl

theorem runLoop_noStop (trace : List (TickResult × Bool)) :
    ∀ s : LoopState, s.stopFlag = false → (∀ x ∈ trace, x.2 = false) →
      (runLoop s trace).2 = false ∧
      (runLoop s trace).1.stopFlag = false ∧
      (runLoop s trace).1.ticksDone = s.ticksDone + trace.length := by
  induction trace with
  | nil =>
    intro s h0 _
    simpa [runLoop] using h0
  | cons x rest ih =>
    intro s h0 hall
    obtain ⟨r, b⟩ := x
    have hb : b = false := hall (r, b) (by simp)
    subst hb
    rw [runLoop, if_neg (by simp [h0])]
    have h1 := ih { applyTick s r with stopFlag := (applyTick s r).stopFlag || false }
      (by simp [applyTick_stopFlag, h0]) (fun x hx => hall x (by simp [hx]))
    refine ⟨h1.1, h1.2.1, ?_⟩
    rw [h1.2.2]
    simp [applyTick_ticksDone]
    omega

theorem runLoop_lastMsg_err (e : String) (pre : List (TickResult × Bool)) :
    ∀ s : LoopState, s.stopFlag = false → (∀ x ∈ pre, x.2 = false) →
      (runLoop s (pre ++ [(.err e, false)])).1.lastMsg = "tick err: " ++ e := by
  induction pre with
  | nil =>
    intro s h0 _
    rw [List.nil_append, runLoop, if_neg (by simp [h0]), runLoop]
    rfl
  | cons x rest ih =>
    intro s h0 hall
    obtain ⟨r, b⟩ := x
    have hb : b = false := hall (r, b) (by simp)
    subst hb
    rw [List.cons_append, runLoop, if_neg (by simp [h0])]
    exact ih _ (by simp [applyTick_stopFlag, h0]) (fun x hx => hall x (by simp [hx]))

/-! ## Claims -/

/-- Claim C6: the fee/edge evaluator returns true exactly when
grossStep - (2 * makerRate + 0.0002) is at least the minimum net
fraction; with maker 0.001 and minNet 0.002 the boundary 0.0042 passes
and 0.0041999 fails. -/
theorem net_ok_characterisation :
    (∀ (fees : FeesState) (minNet grossStep : ℚ),
      net_ok fees minNet grossStep = true ↔
        grossStep - (2 * fees.maker + 2/10000) ≥ minNet) ∧
    net_ok ⟨1/1000, 3/2000, false⟩ (1/500) (42/10000) = true ∧
    net_ok ⟨1/1000, 3/2000, false⟩ (1/500) (41999/10000000) = false := by
  refine ⟨fun fees minNet g => ?_, by decide, by decide⟩
  simp only [net_ok, decide_eq_true_eq, ge_iff_le]
  constructor <;> intro h <;> linarith

/-- Claim C4, counterexample: for the fill record of a LUNCHBOX buy at
entry 100 with spacing 0.005 and maker 0.001, netPct differs from
grossPct - roundTripFeePct - 0.0002, because the source stores the
single-leg maker rate in the fee field while subtracting two maker legs
from the net. -/
theorem trade_record_netPct_cex :
    (exec_paper .buy 1 100 .LUNCHBOX (1/200) ⟨1/1000, 3/2000, false⟩).netPct ≠
      (exec_paper .buy 1 100 .LUNCHBOX (1/200) ⟨1/1000, 3/2000, false⟩).grossPct
        - (exec_paper .buy 1 100 .LUNCHBOX (1/200) ⟨1/1000, 3/2000, false⟩).feePctRt
        - 2/10000 := by
  decide

/-- Claim C4, amended: every fill record satisfies
netPct = grossPct - 2 * roundTripFeePct - 0.0002, the stored fee field
holding the per-leg maker rate. -/
theorem trade_record_netPct_amended (side : Side) (q p s : ℚ) (tag : Regime)
    (fees : FeesState) :
    (exec_paper side q p tag s fees).netPct
      = (exec_paper side q p tag s fees).grossPct
        - 2 * (exec_paper side q p tag s fees).feePctRt - 2/10000 := by
  cases side <;> simp only [exec_paper] <;> ring

/-- Claim C3, counterexample: a bot constructed with manual fee
overrides (maker and taker 0.005) loses them on the first fee refresh
that successfully fetches 0.001/0.0015 from the external source, so the
overrides are not sticky. -/
theorem manual_fees_not_sticky_cex :
    (initFees (some ⟨some (1/200), some (1/200)⟩)).maker = 1/200 ∧
    (fees_update (initFees (some ⟨some (1/200), some (1/200)⟩))
        (some (some (1/1000), some (3/2000))) none).maker = 1/1000 ∧
    ((1:ℚ)/1000) ≠ 1/200 := by
  refine ⟨rfl, rfl, by decide⟩

/-- Claim C3, amended: manual overrides only set the initial stored
rates.  The refresh-suppression guard tests for a reserved dictionary key
the constructor never inserts, so after construction the guard flag is
always false, the refresh keeps the stored rates only when both external
lookups fail, and a successful fetch overwrites them regardless of any
override. -/
theorem manual_fees_refresh_amended :
    (∀ mf, (initFees mf).hasManualKey = false) ∧
    (∀ st : FeesState, fees_update st none none = st) ∧
    (∀ mf m t, fees_update (initFees mf) (some (some m, some t)) none
        = ⟨m, t, false⟩) := by
  refine ⟨fun mf => ?_, fun st => ?_, fun mf m t => ?_⟩
  · cases mf <;> rfl
  · obtain ⟨m, t, b⟩ := st
    cases b <;> rfl
  · cases mf <;> rfl

/-- Claim C8, counterexample: with a minimum net fraction of 1 every
candidate fails the edge check and the planner output is empty, while
the claim text (every level contributes an exact buy and sell) predicts
sixteen orders for eight levels; so levels do not unconditionally
contribute. -/
theorem plan_grid_unfiltered_cex :
    plan_grid 50 100 8 (1/200) ⟨1/1000, 3/2000, false⟩ 1 100
      ≠ planLadderClaim 100 50 100 8 (1/200) ⟨1/1000, 3/2000, false⟩ 1 ∧
    plan_grid 50 100 8 (1/200) ⟨1/1000, 3/2000, false⟩ 1 100 = [] := by
  refine ⟨by decide, by decide⟩

/-- Claim C8, amended: the planner equals the spec-side ladder — empty
when effective budget, level count or price is non-positive, otherwise
per level i = 1..gridLevels a buy at price * (1 - spacing * i) and a
sell at price * (1 + spacing * i) sized to perLevelNotional / levelPrice
(with the source guards), included only when the quantity is positive
and the edge check passes, prices rounded to 4 and quantities to 8
decimals, innermost level first with buy before sell; with budget 50,
balance 100, 8 levels, spacing 0.005, price 100 the per-level notional
is 6.25 and the level-1 orders are a buy at 99.5 and a sell at 100.5. -/
theorem plan_grid_matches_ladder_spec :
    (∀ (B Q : ℚ) (g : ℤ) (s : ℚ) (fees : FeesState) (minNet p : ℚ),
      plan_grid B Q g s fees minNet p = planLadderSpec p B Q g s fees minNet) ∧
    min (50:ℚ) 100 / 8 = 625/100 ∧
    (plan_grid 50 100 8 (1/200) ⟨1/1000, 3/2000, false⟩ (1/500) 100).take 2
      = [⟨.buy, 6281407/100000000, 995/10⟩,
         ⟨.sell, 6218905/100000000, 201/2⟩] := by
  refine ⟨fun B Q g s fees minNet p => plan_grid_eq_ladder_spec B Q g s fees minNet p,
    by decide, by decide⟩

/-- Claim C2, counterexample: with price 100, spacing 0.2 and 5 levels,
the innermost-but-last level has buy price 100 * (1 - 0.2 * 5) = 0; its
quantity is positive and its step passes the edge check, so the planner
emits an order with limit price 0 — not strictly positive. -/
theorem plan_grid_positive_cex :
    ∃ o ∈ plan_grid 50 100 5 (1/5) ⟨1/1000, 3/2000, false⟩ (1/500) 100,
      ¬(0 < o.qty ∧ 0 < o.px) := by
  decide

/-- Claim C2, amended: every planner output order has strictly positive
quantity and limit price provided spacing is positive, the outermost buy
level price stays at or above 0.0001 (so spacing times the level count
stays below 1 and no rounded price collapses to zero), and the per-level
notional is at least 1e-8 times the outermost sell level price (so no
rounded quantity collapses to zero). -/
theorem plan_grid_output_positive (B Q : ℚ) (g : ℤ) (s : ℚ)
    (fees : FeesState) (minNet p : ℚ) (hs : 0 < s)
    (hpx : 1/10^4 ≤ p * (1 - s * (g : ℚ)))
    (hper : 1/10^8 * (p * (1 + s * (g : ℚ))) ≤ min B Q / (g : ℚ)) :
    ∀ o ∈ plan_grid B Q g s fees minNet p, 0 < o.qty ∧ 0 < o.px := by
  intro o ho
  rw [plan_grid_eq_raw, List.mem_map] at ho
  obtain ⟨o', ho', rfl⟩ := ho
  unfold planGridRaw at ho'
  by_cases hguard : min B Q ≤ 0 ∨ g ≤ 0 ∨ p ≤ 0
  · rw [if_pos hguard] at ho'
    simp at ho'
  · rw [if_neg hguard] at ho'
    push_neg at hguard
    obtain ⟨hb0, hg0, hp0⟩ := hguard
    have hgq : (0:ℚ) < (g : ℚ) := by exact_mod_cast hg0
    rw [mem_catList] at ho'
    obtain ⟨i, hi, hoi⟩ := ho'
    rw [List.mem_range] at hi
    have hiq : (i : ℚ) + 1 ≤ (g : ℚ) := by
      have h1 : (i : ℤ) + 1 ≤ g := by omega
      exact_mod_cast h1
    have hi1 : (0:ℚ) < (i : ℚ) + 1 := by positivity
    set per := min B Q / (g : ℚ) with hperdef
    set dn := p * (1 - s * ((i : ℚ) + 1)) with hdndef
    set up := p * (1 + s * ((i : ℚ) + 1)) with hupdef
    have hsgi : s * ((i : ℚ) + 1) ≤ s * (g : ℚ) :=
      mul_le_mul_of_nonneg_left hiq hs.le
    have hdn4 : 1/10^4 ≤ dn := by
      refine le_trans hpx ?_
      rw [hdndef]
      apply mul_le_mul_of_nonneg_left _ hp0.le
      linarith
    have hdnp : dn ≤ p := by
      rw [hdndef]
      nlinarith [mul_pos hs hi1]
    have hsg1 : s * (g : ℚ) < 1 := by nlinarith
    have hXpos : 0 < p * (1 + s * (g : ℚ)) := by
      nlinarith [mul_pos hs hgq]
    have hdnX : dn ≤ p * (1 + s * (g : ℚ)) := by
      refine le_trans hdnp ?_
      nlinarith [mul_pos hs hgq]
    have hupX : up ≤ p * (1 + s * (g : ℚ)) := by
      rw [hupdef]
      apply mul_le_mul_of_nonneg_left _ hp0.le
      linarith
    have hup4 : 1/10^4 ≤ up := by
      refine le_trans hdn4 (le_trans hdnp ?_)
      rw [hupdef]
      nlinarith [mul_pos hs hi1]
    have key : ∀ d : ℚ, 1/10^4 ≤ d → d ≤ p * (1 + s * (g : ℚ)) →
        1/10^8 ≤ per / max d (1/10^9) := by
      intro d hd4 hdX
      rw [max_eq_left (le_trans (by norm_num) hd4)]
      have hd0 : 0 < d := lt_of_lt_of_le (by norm_num) hd4
      rw [le_div_iff₀ hd0]
      calc 1/10^8 * d ≤ 1/10^8 * (p * (1 + s * (g : ℚ))) := by
            apply mul_le_mul_of_nonneg_left hdX (by norm_num)
        _ ≤ per := hper
    unfold gridItemRaw at hoi
    rw [List.mem_append] at hoi
    rcases hoi with hbuy | hsell
    · split_ifs at hbuy with hcond
      · rw [List.mem_singleton] at hbuy
        subst hbuy
        refine ⟨pyRound_pos 8 ?_, pyRound_pos 4 ?_⟩
        · have hk := key dn hdn4 hdnX
          linarith
        · linarith
      · simp at hbuy
    · split_ifs at hsell with hcond
      · rw [List.mem_singleton] at hsell
        subst hsell
        refine ⟨pyRound_pos 8 ?_, pyRound_pos 4 ?_⟩
        · have hk := key up hup4 hupX
          linarith
        · linarith
      · simp at hsell

/-- Claim C2, witness for the amended theorem at the default
parameters. -/
theorem plan_grid_output_positive_witness :
    (0 : ℚ) < 1/200 ∧
    (1:ℚ)/10^4 ≤ 100 * (1 - (1/200) * ((8 : ℤ) : ℚ)) ∧
    (1:ℚ)/10^8 * (100 * (1 + (1/200) * ((8 : ℤ) : ℚ)))
      ≤ min (50:ℚ) 100 / ((8 : ℤ) : ℚ) ∧
    (∀ o ∈ plan_grid 50 100 8 (1/200) ⟨1/1000, 3/2000, false⟩ (1/500) 100,
      0 < o.qty ∧ 0 < o.px) :=
  ⟨by decide, by decide, by decide,
    plan_grid_output_positive 50 100 8 (1/200) ⟨1/1000, 3/2000, false⟩
      (1/500) 100 (by decide) (by decide) (by decide)⟩

/-- Claim C5, counterexample: a DIP cycle at price 100 with budget 100,
balance 100, 2 levels and spacing 0.005 acts on two buy orders whose
rounded quantities times rounded prices total 100.00000021, exceeding
min(budget, balance) = 100; the post-rounding notional can overshoot the
budget bound. -/
theorem cycle_budget_cex :
    min (100:ℚ) 100 < quoteNotional (tickActed .DIP 100 100
      (plan_grid 100 100 2 (1/200) ⟨1/1000, 3/2000, false⟩ (1/500) 100)) := by
  decide

/-- Claim C5, amended: a cycle acts on at most 2 orders, a subsequence
of the planner output in output order; the acted orders are the rounded
images of raw candidates, and for every grid level count the
pre-rounding buy notional of the acted orders never exceeds
min(budget, balance) whenever budget and balance are nonnegative (only
the rounded notional can exceed the bound, by rounding error).  The
bound holds because each level contributes at most one buy candidate,
so the acted buys number at most gridLevels and each carries at most
the per-level notional. -/
theorem cycle_cap_amended (B Q : ℚ) (g : ℤ) (s : ℚ) (fees : FeesState)
    (minNet p : ℚ) (r : Regime) (bal : ℚ)
    (hB : 0 ≤ B) (hQ : 0 ≤ Q) :
    (tickActed r bal p (plan_grid B Q g s fees minNet p)).length ≤ 2 ∧
    (tickActed r bal p (plan_grid B Q g s fees minNet p)).Sublist
      (plan_grid B Q g s fees minNet p) ∧
    tickActed r bal p (plan_grid B Q g s fees minNet p)
      = (tickActed r bal p (planGridRaw B Q g s fees minNet p)).map roundIntent ∧
    quoteNotional (tickActed r bal p (planGridRaw B Q g s fees minNet p))
      ≤ min B Q := by
  refine ⟨tickActed_length r bal p _, tickActed_sublist r bal p _, ?_, ?_⟩
  · rw [plan_grid_eq_raw, tickActed_map_round]
  · have hsub : (tickActed r bal p (planGridRaw B Q g s fees minNet p)).Sublist
        (planGridRaw B Q g s fees minNet p) := tickActed_sublist r bal p _
    by_cases hguard : min B Q ≤ 0 ∨ g ≤ 0 ∨ p ≤ 0
    · have hraw : planGridRaw B Q g s fees minNet p = [] := by
        unfold planGridRaw
        rw [if_pos hguard]
      rw [hraw] at hsub ⊢
      rw [List.sublist_nil.mp hsub]
      simpa [quoteNotional] using le_min hB hQ
    · push_neg at hguard
      obtain ⟨hb0, hg0, _⟩ := hguard
      have hgq : (0:ℚ) < (g : ℚ) := by exact_mod_cast hg0
      have hper0 : 0 < min B Q / (g : ℚ) := div_pos hb0 hgq
      rw [quoteNotional_eq_filter_buy]
      have hbound := quoteNotional_le_of_bound
        ((tickActed r bal p (planGridRaw B Q g s fees minNet p)).filter
          (fun o => decide (o.side = .buy)))
        (min B Q / (g : ℚ)) hper0.le
        (fun o ho => planGridRaw_notional_le B Q g s fees minNet p o
          (hsub.subset (List.mem_of_mem_filter ho)))
      have hlen : ((tickActed r bal p (planGridRaw B Q g s fees minNet p)).filter
            (fun o => decide (o.side = .buy))).length ≤ g.toNat :=
        le_trans (hsub.filter _).length_le
          (planGridRaw_buys_le B Q g s fees minNet p)
      have htn : ((g.toNat : ℚ)) = (g : ℚ) := by
        exact_mod_cast congrArg (fun z : ℤ => (z : ℚ)) (Int.toNat_of_nonneg hg0.le)
      have hlenq : (((tickActed r bal p (planGridRaw B Q g s fees minNet p)).filter
            (fun o => decide (o.side = .buy))).length : ℚ) ≤ (g : ℚ) := by
        rw [← htn]
        exact_mod_cast hlen
      calc quoteNotional
            ((tickActed r bal p (planGridRaw B Q g s fees minNet p)).filter
              (fun o => decide (o.side = .buy)))
          ≤ (((tickActed r bal p (planGridRaw B Q g s fees minNet p)).filter
              (fun o => decide (o.side = .buy))).length : ℚ)
            * (min B Q / (g : ℚ)) := hbound
        _ ≤ (g : ℚ) * (min B Q / (g : ℚ)) :=
            mul_le_mul_of_nonneg_right hlenq hper0.le
        _ = min B Q := by
            rw [mul_comm, div_mul_cancel₀ _ hgq.ne']

/-- Claim C5, witness for the amended theorem at the default
parameters. -/
theorem cycle_cap_amended_witness :
    ((0:ℚ) ≤ 50) ∧ ((0:ℚ) ≤ 100) ∧
    ((tickActed .REGULAR 100 100
        (plan_grid 50 100 8 (1/200) ⟨1/1000, 3/2000, false⟩ (1/500) 100)).length ≤ 2 ∧
      (tickActed .REGULAR 100 100
        (plan_grid 50 100 8 (1/200) ⟨1/1000, 3/2000, false⟩ (1/500) 100)).Sublist
        (plan_grid 50 100 8 (1/200) ⟨1/1000, 3/2000, false⟩ (1/500) 100) ∧
      tickActed .REGULAR 100 100
        (plan_grid 50 100 8 (1/200) ⟨1/1000, 3/2000, false⟩ (1/500) 100)
        = (tickActed .REGULAR 100 100
            (planGridRaw 50 100 8 (1/200) ⟨1/1000, 3/2000, false⟩ (1/500) 100)).map
            roundIntent ∧
      quoteNotional (tickActed .REGULAR 100 100
          (planGridRaw 50 100 8 (1/200) ⟨1/1000, 3/2000, false⟩ (1/500) 100))
        ≤ min 50 100) :=
  ⟨by decide, by decide,
    cycle_cap_amended 50 100 8 (1/200) ⟨1/1000, 3/2000, false⟩ (1/500) 100
      .REGULAR 100 (by decide) (by decide)⟩

/-- Claim C1: the regime classifier equals the spec-side ordered
decision table (SCOUT below 50 candles, SCOUT when rsi is absent, then
the four threshold rules in priority order with SCOUT as the default);
any series shorter than 50 candles classifies as SCOUT; and the
indicator triple slope 0.0005, rsi 45, vol 0.01 classifies as
REGULAR. -/
theorem regime_priority_table (ohlcv short : List Candle)
    (hshort : short.length < 50) :
    regime ohlcv = regimeSpec ohlcv ∧
    regime short = .SCOUT ∧
    regimeChain (5/10000) 45 (1/100) = .REGULAR := by
  refine ⟨?_, ?_, by decide⟩
  · simp only [regime, regimeSpec]
    by_cases hl : ohlcv.length < 50
    · rw [if_pos hl, if_pos hl]
    · rw [if_neg hl, if_neg hl]
      cases h : rsi_list (ohlcv.map (·.c)) 14 with
      | none => rfl
      | some r => exact chain_eq_rules (slopeOf ohlcv) r (atrp_list ohlcv 14)
  · simp [regime, hshort]

/-- Claim C1, witness: the empty series is shorter than 50 candles and
the theorem applies to it. -/
theorem regime_priority_table_witness :
    (([] : List Candle).length < 50) ∧
    (regime ([] : List Candle) = regimeSpec ([] : List Candle) ∧
      regime ([] : List Candle) = .SCOUT ∧
      regimeChain (5/10000) 45 (1/100) = .REGULAR) :=
  ⟨by decide, regime_priority_table [] [] (by decide)⟩

/-- Claim C10: for any series of at least 50 candles the window-14
relative strength of the closes is present (50 is at least 15), so the
classifier reduces to the priority chain on the computed indicators and
its absent-rsi SCOUT fallback is unreachable. -/
theorem rsi_present_for_long_series (ohlcv : List Candle)
    (hlen : 50 ≤ ohlcv.length) :
    (∃ r, rsi_list (ohlcv.map (·.c)) 14 = some r) ∧
    regime ohlcv
      = regimeChain (slopeOf ohlcv) ((rsi_list (ohlcv.map (·.c)) 14).getD 0)
          (atrp_list ohlcv 14) := by
  have hnl : ¬ (ohlcv.map (·.c)).length < 14 + 1 := by
    rw [List.length_map]
    omega
  have hsome : ∃ r, rsi_list (ohlcv.map (·.c)) 14 = some r := by
    simp only [rsi_list]
    rw [if_neg hnl]
    split_ifs <;> exact ⟨_, rfl⟩
  obtain ⟨r, hr⟩ := hsome
  refine ⟨⟨r, hr⟩, ?_⟩
  simp only [regime, if_neg (show ¬ ohlcv.length < 50 by omega), hr,
    Option.getD_some]

/-- Claim C10, witness: fifty flat candles form a concrete series of
length at least 50. -/
theorem rsi_present_for_long_series_witness :
    50 ≤ flatSeries.length ∧
    ((∃ r, rsi_list (flatSeries.map (·.c)) 14 = some r) ∧
      regime flatSeries
        = regimeChain (slopeOf flatSeries)
            ((rsi_list (flatSeries.map (·.c)) 14).getD 0)
            (atrp_list flatSeries 14)) :=
  ⟨by decide, rsi_present_for_long_series flatSeries (by decide)⟩

/-- Claim C7: the simulated fill exits at entry * (1 + move) for a buy
and entry * (1 - move) for a sell, where the move is the spacing boosted
by 1.5 exactly for AFTERBURNER; gross is the absolute relative
excursion, net is gross - 2 * maker - 0.0002, and pnl is
qty * (exit - entry) - qty * entry * maker - qty * exit * maker for a
long and mirrored for a short; in particular a LUNCHBOX buy at 100 with
spacing 0.005 and maker 0.001 exits at 100.5 with gross 0.005 and net
0.0028. -/
theorem exec_paper_fields (q p s : ℚ) (fees : FeesState) (tag : Regime)
    (hp : 0 < p) (hs : 0 ≤ s) :
    (exec_paper .buy q p tag s fees).exitPx
        = p * (1 + (if tag = .AFTERBURNER then s * (15/10) else s)) ∧
    (exec_paper .sell q p tag s fees).exitPx
        = p * (1 - (if tag = .AFTERBURNER then s * (15/10) else s)) ∧
    (exec_paper .buy q p tag s fees).grossPct
        = |(exec_paper .buy q p tag s fees).exitPx - p| / p ∧
    (exec_paper .sell q p tag s fees).grossPct
        = |(exec_paper .sell q p tag s fees).exitPx - p| / p ∧
    (exec_paper .buy q p tag s fees).netPct
        = (exec_paper .buy q p tag s fees).grossPct - 2 * fees.maker - 2/10000 ∧
    (exec_paper .sell q p tag s fees).netPct
        = (exec_paper .sell q p tag s fees).grossPct - 2 * fees.maker - 2/10000 ∧
    (exec_paper .buy q p tag s fees).pnlUsd
        = q * ((exec_paper .buy q p tag s fees).exitPx - p) - q * p * fees.maker
          - q * (exec_paper .buy q p tag s fees).exitPx * fees.maker ∧
    (exec_paper .sell q p tag s fees).pnlUsd
        = q * (p - (exec_paper .sell q p tag s fees).exitPx) - q * p * fees.maker
          - q * (exec_paper .sell q p tag s fees).exitPx * fees.maker ∧
    (exec_paper .buy 1 100 .LUNCHBOX (1/200) ⟨1/1000, 3/2000, false⟩).exitPx
        = 201/2 ∧
    (exec_paper .buy 1 100 .LUNCHBOX (1/200) ⟨1/1000, 3/2000, false⟩).grossPct
        = 1/200 ∧
    (exec_paper .buy 1 100 .LUNCHBOX (1/200) ⟨1/1000, 3/2000, false⟩).netPct
        = 7/2500 := by
  have hs2 : 0 ≤ (if tag = .AFTERBURNER then s * (15/10) else s) := by
    split_ifs
    · nlinarith
    · exact hs
  simp only [exec_paper]
  have hb : 0 ≤ p * (1 + (if tag = .AFTERBURNER then s * (15/10) else s)) - p := by
    nlinarith [mul_nonneg hp.le hs2]
  have hsell : p * (1 - (if tag = .AFTERBURNER then s * (15/10) else s)) - p ≤ 0 := by
    nlinarith [mul_nonneg hp.le hs2]
  refine ⟨trivial, trivial, ?_, ?_, by ring, by ring, trivial, trivial,
    by decide, by decide, by decide⟩
  · rw [abs_of_nonneg hb]
  · rw [abs_of_nonpos hsell]
    ring

/-- Claim C7, witness for the fill-simulator theorem at the LUNCHBOX
instance. -/
theorem exec_paper_fields_witness :
    (0:ℚ) < 100 ∧ (0:ℚ) ≤ 1/200 ∧
    ((exec_paper .buy 1 100 .LUNCHBOX (1/200) ⟨1/1000, 3/2000, false⟩).exitPx
        = 100 * (1 + (if Regime.LUNCHBOX = .AFTERBURNER
            then (1/200 : ℚ) * (15/10) else 1/200)) ∧
      (exec_paper .sell 1 100 .LUNCHBOX (1/200) ⟨1/1000, 3/2000, false⟩).exitPx
        = 100 * (1 - (if Regime.LUNCHBOX = .AFTERBURNER
            then (1/200 : ℚ) * (15/10) else 1/200)) ∧
      (exec_paper .buy 1 100 .LUNCHBOX (1/200) ⟨1/1000, 3/2000, false⟩).grossPct
        = |(exec_paper .buy 1 100 .LUNCHBOX (1/200)
            ⟨1/1000, 3/2000, false⟩).exitPx - 100| / 100 ∧
      (exec_paper .sell 1 100 .LUNCHBOX (1/200) ⟨1/1000, 3/2000, false⟩).grossPct
        = |(exec_paper .sell 1 100 .LUNCHBOX (1/200)
            ⟨1/1000, 3/2000, false⟩).exitPx - 100| / 100 ∧
      (exec_paper .buy 1 100 .LUNCHBOX (1/200) ⟨1/1000, 3/2000, false⟩).netPct
        = (exec_paper .buy 1 100 .LUNCHBOX (1/200)
            ⟨1/1000, 3/2000, false⟩).grossPct - 2 * (1/1000) - 2/10000 ∧
      (exec_paper .sell 1 100 .LUNCHBOX (1/200) ⟨1/1000, 3/2000, false⟩).netPct
        = (exec_paper .sell 1 100 .LUNCHBOX (1/200)
            ⟨1/1000, 3/2000, false⟩).grossPct - 2 * (1/1000) - 2/10000 ∧
      (exec_paper .buy 1 100 .LUNCHBOX (1/200) ⟨1/1000, 3/2000, false⟩).pnlUsd
        = 1 * ((exec_paper .buy 1 100 .LUNCHBOX (1/200)
            ⟨1/1000, 3/2000, false⟩).exitPx - 100) - 1 * 100 * (1/1000)
          - 1 * (exec_paper .buy 1 100 .LUNCHBOX (1/200)
            ⟨1/1000, 3/2000, false⟩).exitPx * (1/1000) ∧
      (exec_paper .sell 1 100 .LUNCHBOX (1/200) ⟨1/1000, 3/2000, false⟩).pnlUsd
        = 1 * (100 - (exec_paper .sell 1 100 .LUNCHBOX (1/200)
            ⟨1/1000, 3/2000, false⟩).exitPx) - 1 * 100 * (1/1000)
          - 1 * (exec_paper .sell 1 100 .LUNCHBOX (1/200)
            ⟨1/1000, 3/2000, false⟩).exitPx * (1/1000) ∧
      (exec_paper .buy 1 100 .LUNCHBOX (1/200) ⟨1/1000, 3/2000, false⟩).exitPx
        = 201/2 ∧
      (exec_paper .buy 1 100 .LUNCHBOX (1/200) ⟨1/1000, 3/2000, false⟩).grossPct
        = 1/200 ∧
      (exec_paper .buy 1 100 .LUNCHBOX (1/200) ⟨1/1000, 3/2000, false⟩).netPct
        = 7/2500) :=
  ⟨by decide, by decide,
    exec_paper_fields 1 100 (1/200) ⟨1/1000, 3/2000, false⟩ .LUNCHBOX
      (by decide) (by decide)⟩

/-- Claim C9: the scheduler loop catches every in-cycle exception at the
loop boundary, records it as the latest status message and continues to
the next wake-up having completed one more tick; a trace with no stop
requests never exits the loop and runs every tick; a stop request is
honored at the next between-cycles check, before any further tick
runs. -/
theorem run_loop_error_isolation (s : LoopState)
    (pre post : List (TickResult × Bool)) (e : String)
    (r1 r2 : TickResult) (b2 : Bool) (rest : List (TickResult × Bool))
    (h0 : s.stopFlag = false)
    (hpre : ∀ x ∈ pre, x.2 = false)
    (hpost : ∀ x ∈ post, x.2 = false) :
    (runLoop s (pre ++ [(.err e, false)])).1.lastMsg = "tick err: " ++ e ∧
    (runLoop s (pre ++ [(.err e, false)])).2 = false ∧
    (runLoop s (pre ++ [(.err e, false)])).1.ticksDone
      = s.ticksDone + pre.length + 1 ∧
    (runLoop s post).2 = false ∧
    (runLoop s post).1.ticksDone = s.ticksDone + post.length ∧
    (runLoop s ((r1, true) :: (r2, b2) :: rest)).1.ticksDone
      = s.ticksDone + 1 ∧
    (runLoop s ((r1, true) :: (r2, b2) :: rest)).2 = true := by
  have hall : ∀ x ∈ pre ++ [((TickResult.err e), false)], x.2 = false := by
    intro x hx
    rw [List.mem_append] at hx
    rcases hx with hx | hx
    · exact hpre x hx
    · rw [List.mem_singleton] at hx
      subst hx
      rfl
  have hns := runLoop_noStop (pre ++ [(.err e, false)]) s h0 hall
  have hstop1 : (runLoop s ((r1, true) :: (r2, b2) :: rest))
      = ({ applyTick s r1 with stopFlag := true },
          true) := by
    rw [runLoop, if_neg (by simp [h0])]
    have : (applyTick s r1).stopFlag || true = true := by simp
    rw [runLoop]
    simp [this]
  refine ⟨runLoop_lastMsg_err e pre s h0 hpre, hns.1, ?_,
    (runLoop_noStop post s h0 hpost).1, (runLoop_noStop post s h0 hpost).2.2,
    ?_, ?_⟩
  · rw [hns.2.2]
    simp
    omega
  · rw [hstop1]
    simp [applyTick_ticksDone]
  · rw [hstop1]

/-- Claim C9, witness for the loop theorem on a concrete two-element
trace. -/
theorem run_loop_error_isolation_witness :
    ((⟨false, "", 0⟩ : LoopState).stopFlag = false) ∧
    (∀ x ∈ [((TickResult.ok "status"), false)], x.2 = false) ∧
    (∀ x ∈ ([] : List (TickResult × Bool)), x.2 = false) ∧
    ((runLoop ⟨false, "", 0⟩
        ([(TickResult.ok "status", false)] ++ [(.err "E: boom", false)])).1.lastMsg
      = "tick err: " ++ "E: boom" ∧
    (runLoop ⟨false, "", 0⟩
        ([(TickResult.ok "status", false)] ++ [(.err "E: boom", false)])).2 = false ∧
    (runLoop ⟨false, "", 0⟩
        ([(TickResult.ok "status", false)] ++ [(.err "E: boom", false)])).1.ticksDone
      = (⟨false, "", 0⟩ : LoopState).ticksDone
          + [(TickResult.ok "status", false)].length + 1 ∧
    (runLoop ⟨false, "", 0⟩ ([] : List (TickResult × Bool))).2 = false ∧
    (runLoop ⟨false, "", 0⟩ ([] : List (TickResult × Bool))).1.ticksDone
      = (⟨false, "", 0⟩ : LoopState).ticksDone
          + ([] : List (TickResult × Bool)).length ∧
    (runLoop ⟨false, "", 0⟩
        ((TickResult.ok "a", true) :: (TickResult.ok "b", false) :: [])).1.ticksDone
      = (⟨false, "", 0⟩ : LoopState).ticksDone + 1 ∧
    (runLoop ⟨false, "", 0⟩
        ((TickResult.ok "a", true) :: (TickResult.ok "b", false) :: [])).2 = true) :=
  ⟨rfl,
    by
      intro x hx
      rw [List.mem_singleton] at hx
      subst hx
      rfl,
    by
      intro x hx
      simp at hx,
    run_loop_error_isolation ⟨false, "", 0⟩ [(TickResult.ok "status", false)] []
      "E: boom" (TickResult.ok "a") (TickResult.ok "b") false [] rfl
      (by
        intro x hx
        rw [List.mem_singleton] at hx
        subst hx
        rfl)
      (by
        intro x hx
        simp at hx)⟩

end Midas
